import Mathlib

/-!
Verification development for the client-side fact-search engine of the
Ansible Facts Explorer repository.

The definitions below are a shallow embedding of the relevant source code:

* `src/components/FactBrowser.tsx` — `flatten` / `flattenFactsForTable`
  (row model builder), `matchesPill`, `matchesLiveSearch`, `searchedFacts`
  (filter pipeline), `pivotFactsForExport` (pivot projector),
  `sortedListFacts` / `sortedPivotedData` (sort engine);
* `src/public/filter.worker.js` — `matchSingleTerm`, `matchesPill`
  (OR-splitting variant) and the `onmessage` filter loop.

Modelling conventions:

* JavaScript values reached by the engine are the JSON-shaped values of a
  host fact object (`Json`) and the leaf display values stored in a
  `FactRow` (`FactValue`).
* JavaScript numbers are modelled as exact decimal rationals
  (`Dec10`: an integer mantissa over a power of ten); the rounding of
  IEEE-754 doubles is not modelled.  `parseFloat` is modelled by
  `jsParseFloat`, returning `none` for `NaN` and an explicit
  infinity-or-finite value (`JsNum`) otherwise.
* String indices count characters (Lean `Char`s / Unicode scalar values),
  whereas JavaScript indexes UTF-16 code units; the two agree on all
  strings without supplementary-plane characters.
* `RegExp` construction and `localeCompare` are host-environment
  functions; engine code that calls them is parameterised by an explicit
  function argument (`compile`, resp. `lc`).  `compile t = none` models
  `new RegExp(t, "i")` throwing, `compile t = some test` models a
  successfully compiled regex with test function `test`.
* JavaScript objects are modelled as insertion-ordered association lists;
  property update keeps the position of an existing key (`objSet`).
-/

/-- An exact decimal rational `m / 10 ^ e`: the value set JavaScript
number literals and `parseFloat` results draw from (IEEE-754 rounding is
not modelled).  The representation is not required to be reduced;
comparisons cross-multiply. -/
structure Dec10 where
  m : Int
  e : Nat
deriving DecidableEq

/-- A JSON value, the shape of one host's fact data. -/
inductive Json where
  | str (s : String)
  | num (q : Dec10)
  | bool (b : Bool)
  | null
  | arr (elems : List Json)
  | obj (fields : List (String × Json))

/-- The display value stored in a `FactRow`: a JavaScript primitive.
Arrays (and any object surviving at a leaf) are collapsed to their
JSON-serialised string by the flattener before being stored. -/
inductive FactValue where
  | str (s : String)
  | num (q : Dec10)
  | bool (b : Bool)
  | null
deriving DecidableEq

/-- `FactRow` from `src/types.ts`: the atomic unit of the engine. -/
structure FactRow where
  id : String
  host : String
  factPath : String
  value : FactValue
  modified : Option String
deriving DecidableEq

/-- JavaScript `\s` on the characters that occur in practice
(ASCII whitespace plus NBSP; the rarer Unicode space characters are
omitted). -/
def jsWhitespace (c : Char) : Bool :=
  c = ' ' || c = '\t' || c = '\n' || c = '\r' ||
  c = '\x0b' || c = '\x0c' || c = ' '

/-- JavaScript `String.prototype.trim`. -/
def jsTrim (s : String) : String :=
  ⟨(s.data.dropWhile jsWhitespace).reverse.dropWhile jsWhitespace |>.reverse⟩

/-- JavaScript `String.prototype.toLowerCase`, restricted to the ASCII
case mapping (Lean's `Char.toLower`). -/
def jsToLower (s : String) : String :=
  ⟨s.data.map Char.toLower⟩

/-- JavaScript `String.prototype.includes` (substring containment). -/
def strIncludes (s sub : String) : Bool :=
  go s.data
where
  go : List Char → Bool
  | [] => sub.data.isPrefixOf []
  | l@(_ :: t) => sub.data.isPrefixOf l || go t

/-- JavaScript `String.prototype.startsWith` (structural, so that proofs
can evaluate it). -/
def jsStartsWith (s pre : String) : Bool :=
  pre.data.isPrefixOf s.data

/-- JavaScript `String.prototype.endsWith` (structural). -/
def jsEndsWith (s post : String) : Bool :=
  post.data.reverse.isPrefixOf s.data.reverse

/-- Split a character list at every occurrence of `c`
(JavaScript `split` with a one-character separator: `"a|".split('|')`
is `["a", ""]`). -/
def splitOnChar (c : Char) : List Char → List (List Char)
  | [] => [[]]
  | x :: xs =>
      let r := splitOnChar c xs
      if x = c then [] :: r
      else
        match r with
        | h :: t => (x :: h) :: t
        | [] => [[x]]

/-- JavaScript `String.prototype.split('|')`. -/
def jsSplitBar (s : String) : List String :=
  (splitOnChar '|' s.data).map (fun l => ⟨l⟩)

/-- JavaScript `String.prototype.substring`: clamps both indices to
`[0, length]` and swaps them when `a > b`. -/
def jsSubstring (s : String) (a b : Nat) : String :=
  let len := s.data.length
  let a' := min a len
  let b' := min b len
  ⟨(s.data.drop (min a' b')).take (max a' b' - min a' b')⟩

/-- A JavaScript number that is not `NaN`: an infinity or a finite value
(finite doubles modelled as exact decimal rationals). -/
inductive JsNum where
  | negInf
  | fin (q : Dec10)
  | posInf
deriving DecidableEq

/-- The `<` comparison on non-`NaN` JavaScript numbers; on finite values
`a.m / 10 ^ a.e < b.m / 10 ^ b.e` by cross-multiplication. -/
def JsNum.ltb : JsNum → JsNum → Bool
  | .negInf, .negInf => false
  | .negInf, _ => true
  | _, .negInf => false
  | .posInf, _ => false
  | .fin _, .posInf => true
  | .fin a, .fin b => decide (a.m * (10 : Int) ^ b.e < b.m * (10 : Int) ^ a.e)

/-- The `>` comparison on non-`NaN` JavaScript numbers. -/
def JsNum.gtb (a b : JsNum) : Bool := JsNum.ltb b a

/-- The `>=` comparison on non-`NaN` JavaScript numbers. -/
def JsNum.geb (a b : JsNum) : Bool := !JsNum.ltb a b

/-- The `<=` comparison on non-`NaN` JavaScript numbers. -/
def JsNum.leb (a b : JsNum) : Bool := !JsNum.ltb b a

/-- Reduce a `Dec10` by cancelling factors of ten, so that the decimal
rendering below matches JavaScript's shortest form (`3.50` never
occurs, `3.5` does). -/
def dec10NormGo : Int → Nat → Int × Nat
  | m, 0 => (m, 0)
  | m, e + 1 => if m % 10 = 0 then dec10NormGo (m / 10) e else (m, e + 1)

/-- JavaScript number-to-string conversion for the values the engine
produces: exact for integers and finite decimal fractions.  The
exponent notation JavaScript switches to for very large or very small
magnitudes is not modelled. -/
def jsNumToString (q : Dec10) : String :=
  let n := if q.m = 0 then ((0 : Int), (0 : Nat)) else dec10NormGo q.m q.e
  let m := n.1
  let e := n.2
  if e = 0 then toString m
  else
    let sign := if m < 0 then "-" else ""
    let digits := Nat.toDigits 10 m.natAbs
    let digits := (List.replicate (e + 1 - digits.length) '0') ++ digits
    sign ++ ⟨digits.take (digits.length - e)⟩ ++ "." ++ ⟨digits.drop (digits.length - e)⟩

/-- JSON string escaping for the characters the serialiser must escape;
other control characters pass through unescaped (they do not occur in
the repository's data). -/
def jsonEscape (s : String) : String :=
  ⟨s.data.flatMap (fun c =>
    if c = '"' then ['\\', '"']
    else if c = '\\' then ['\\', '\\']
    else if c = '\n' then ['\\', 'n']
    else if c = '\r' then ['\\', 'r']
    else if c = '\t' then ['\\', 't']
    else [c])⟩

mutual
/-- `JSON.stringify`, as used by the flattener on leaf arrays/objects. -/
def stringifyJson : Json → String
  | .str s => "\"" ++ jsonEscape s ++ "\""
  | .num q => jsNumToString q
  | .bool true => "true"
  | .bool false => "false"
  | .null => "null"
  | .arr xs => "[" ++ stringifyElems xs ++ "]"
  | .obj fs => "\x7b" ++ stringifyFields fs ++ "\x7d"

/-- Comma-separated serialisation of array elements. -/
def stringifyElems : List Json → String
  | [] => ""
  | [x] => stringifyJson x
  | x :: y :: rest => stringifyJson x ++ "," ++ stringifyElems (y :: rest)

/-- Comma-separated serialisation of object fields. -/
def stringifyFields : List (String × Json) → String
  | [] => ""
  | [(k, v)] => "\"" ++ jsonEscape k ++ "\":" ++ stringifyJson v
  | (k, v) :: y :: rest =>
      "\"" ++ jsonEscape k ++ "\":" ++ stringifyJson v ++ "," ++ stringifyFields (y :: rest)
end

/-- `const displayValue = (value && typeof value === 'object') ?
JSON.stringify(value) : value` — at a leaf the value is a primitive or an
array (plain objects were recursed into); `null` is falsy and stays
`null`. -/
def displayValueOf : Json → FactValue
  | .str s => .str s
  | .num q => .num q
  | .bool b => .bool b
  | .null => .null
  | .arr xs => .str (stringifyJson (.arr xs))
  | .obj fs => .str (stringifyJson (.obj fs))

/-- The reserved per-host metadata key. -/
def tsKey : String := "__awx_facts_modified_timestamp"

mutual
/-- The inner `flatten` of `flattenFactsForTable`
(`FactBrowser.tsx` lines 31–42): `Object.entries(obj).filter(([key]) =>
key !== '__awx_facts_modified_timestamp').flatMap(...)`.  The source's
`filter`-then-`flatMap` over the entry list is fused into one structural
recursion; `flattenEntry` is the body of the `flatMap`. -/
def flattenObj : List (String × Json) → List String → List (String × FactValue)
  | [], _ => []
  | (key, value) :: rest, path =>
      (if key = tsKey then [] else flattenEntry key value path) ++ flattenObj rest path

/-- One entry of the `flatMap`: recurse into plain objects
(`value && typeof value === 'object' && !Array.isArray(value)`), emit a
single dot-joined leaf pair otherwise. -/
def flattenEntry : String → Json → List String → List (String × FactValue)
  | key, .obj fields, path => flattenObj fields (path ++ [key])
  | key, v, path => [(String.intercalate "." (path ++ [key]), displayValueOf v)]
end

/-- Lookup of an own property of a JavaScript object modelled as an
insertion-ordered association list (keys are unique in any object
produced by JSON parsing). -/
def jsLookup (l : List (String × α)) (k : String) : Option α :=
  (l.find? (fun kv => kv.1 == k)).map (fun kv => kv.2)

/-- `hostFacts.__awx_facts_modified_timestamp` — per the snapshot
contract the reserved key, when present, holds a timestamp string. -/
def tsOf (hostFacts : List (String × Json)) : Option String :=
  match jsLookup hostFacts tsKey with
  | some (.str s) => some s
  | _ => none

/-- `AllHostFacts`: hostname → fact object, in insertion order. -/
abbrev AllHostFacts : Type := List (String × List (String × Json))

/-- The sentinel row emitted for a host with zero leaf facts. -/
def sentinelRow (host : String) (modified : Option String) : FactRow :=
  { id := host ++ "-no-facts", host := host, factPath := "---",
    value := .str "(No data available)", modified := modified }

/-- A row for one flattened `(factPath, value)` pair of a host. -/
def factRowOf (host : String) (modified : Option String)
    (pair : String × FactValue) : FactRow :=
  { id := host ++ "-" ++ pair.1, host := host, factPath := pair.1,
    value := pair.2, modified := modified }

/-- The body of the `for (const host in allHostFacts)` loop of
`flattenFactsForTable`: the rows pushed for one host. -/
def hostRows (hostEntry : String × List (String × Json)) : List FactRow :=
  if flattenObj hostEntry.2 [] = [] then [sentinelRow hostEntry.1 (tsOf hostEntry.2)]
  else (flattenObj hostEntry.2 []).map (factRowOf hostEntry.1 (tsOf hostEntry.2))

/-- `flattenFactsForTable` (`FactBrowser.tsx` lines 28–72): the row model
builder.  The `for...in` / `hasOwnProperty` loop enumerates the
snapshot's own keys in insertion order. -/
def flattenFactsForTable (allHostFacts : AllHostFacts) : List FactRow :=
  allHostFacts.flatMap hostRows

/-- The six comparison operators of the pill grammar, i.e. the
alternatives of the group `(!=|>=|<=|>|<|=)` of `operatorRegex`. -/
inductive Op where
  | eq | ne | gt | lt | ge | le
deriving DecidableEq

/-- Try the operator alternatives at the head of `l`, in the alternation
order of `operatorRegex` (`!=`, `>=`, `<=`, `>`, `<`, `=`); longer
operators are listed before their prefixes, so they win. -/
def opAt : List Char → Option (Op × List Char)
  | '!' :: '=' :: rest => some (.ne, rest)
  | '>' :: '=' :: rest => some (.ge, rest)
  | '<' :: '=' :: rest => some (.le, rest)
  | '>' :: rest => some (.gt, rest)
  | '<' :: rest => some (.lt, rest)
  | '=' :: rest => some (.eq, rest)
  | _ => none

/-- Backtracking scan implementing the match of
`/^(.*?)\s*(!=|>=|<=|>|<|=)\s*(.*)$/` against a string: the lazy key
group grows one character at a time (it cannot cross a newline, which
`.` does not match); at each split point the greedy `\s*` skips the
whitespace run, then the operator alternatives are tried; the value
group is the rest with its leading whitespace run removed, and must not
contain a newline (otherwise `(.*)$` cannot match and the scan moves
on).  Returns the raw contents of groups 1 and 3 plus the operator. -/
def opHere (keyRev rest : List Char) : Option (List Char × Op × List Char) :=
  match opAt (rest.dropWhile jsWhitespace) with
  | some (op, after) =>
      let value := after.dropWhile jsWhitespace
      if value.contains '\n' then none else some (keyRev.reverse, op, value)
  | none => none

/-- The position-by-position scan: succeed at the first split point where
`opHere` succeeds, otherwise move one (non-newline) character from the
rest into the key group and retry. -/
def opScanGo : List Char → List Char → Option (List Char × Op × List Char)
  | keyRev, [] => opHere keyRev []
  | keyRev, c :: cs =>
      match opHere keyRev (c :: cs) with
      | some r => some r
      | none => if c = '\n' then none else opScanGo (c :: keyRev) cs

/-- `trimmedTerm.match(operatorRegex)` followed by
`match.map(s => s ? s.trim() : '')`: the key/operator/value split both
matchers start from, with key and value already trimmed. -/
def opSplit (t : String) : Option (String × Op × String) :=
  (opScanGo [] t.data).map (fun r => (jsTrim ⟨r.1⟩, r.2.1, jsTrim ⟨r.2.2⟩))

/-- Digit-run parser: accumulated value, number of digits consumed, and
the remaining characters. -/
def parseDigitsGo : List Char → Nat → Nat → Nat × Nat × List Char
  | c :: rest, acc, cnt =>
      if c.isDigit then parseDigitsGo rest (acc * 10 + (c.toNat - 48)) (cnt + 1)
      else (acc, cnt, c :: rest)
  | [], acc, cnt => (acc, cnt, [])

/-- JavaScript `parseFloat`: skip leading whitespace, optional sign,
then `Infinity` or a decimal significand with optional exponent; the
longest valid numeric prefix is used and trailing characters are
ignored; `none` models `NaN`. -/
def jsParseFloat (s : String) : Option JsNum :=
  let l0 := s.data.dropWhile jsWhitespace
  let signed : Bool × List Char :=
    match l0 with
    | '-' :: rest => (true, rest)
    | '+' :: rest => (false, rest)
    | _ => (false, l0)
  let neg := signed.1
  let l := signed.2
  if ("Infinity".data).isPrefixOf l then some (if neg then .negInf else .posInf)
  else
    let ipr := parseDigitsGo l 0 0
    let fpr :=
      match ipr.2.2 with
      | '.' :: rest => parseDigitsGo rest 0 0
      | _ => (0, 0, ipr.2.2)
    if ipr.2.1 = 0 ∧ fpr.2.1 = 0 then none
    else
      let mantissa : Int := (ipr.1 * 10 ^ fpr.2.1 + fpr.1 : Nat)
      let mantissa : Int := if neg then -mantissa else mantissa
      let exp : Int :=
        match fpr.2.2 with
        | 'e' :: rest | 'E' :: rest =>
            let esigned : Bool × List Char :=
              match rest with
              | '-' :: r => (true, r)
              | '+' :: r => (false, r)
              | _ => (false, rest)
            let er := parseDigitsGo esigned.2 0 0
            if er.2.1 = 0 then 0
            else if esigned.1 then -(er.1 : Int) else (er.1 : Int)
        | _ => 0
      let net : Int := exp - (fpr.2.1 : Int)
      some (.fin (if 0 ≤ net then ⟨mantissa * (10 : Int) ^ net.toNat, 0⟩
                  else ⟨mantissa, (-net).toNat⟩))

/-- JavaScript `String(value)` on a `FactRow` value. -/
def jsString : FactValue → String
  | .str s => s
  | .num q => jsNumToString q
  | .bool true => "true"
  | .bool false => "false"
  | .null => "null"

/-- JavaScript truthiness of an optional string field
(`fact.modified ? ... : false`): `undefined` and `""` are falsy. -/
def optStrTruthy : Option String → Option String
  | some "" => none
  | o => o

/-- The numeric comparison performed for an ordering operator once both
sides parsed (`numericFactValue <op> numericSearchValue`); `false` for
`=`/`!=`, which never reach this point. -/
def opNumHolds : Op → JsNum → JsNum → Bool
  | .gt, a, b => a.gtb b
  | .lt, a, b => a.ltb b
  | .ge, a, b => a.geb b
  | .le, a, b => a.leb b
  | _, _, _ => false

/-- The value comparison both matchers perform once the fact path has
passed the suffix gate (the `switch (operator)` over `fact.value`):
string equality for `=`/`!=`, float parsing plus numeric comparison for
the ordering operators. -/
def valueCompare (fact : FactRow) (operator : Op) (value : String) : Bool :=
  let lowerValue := jsToLower value
  match operator with
  | .eq => jsToLower (jsString fact.value) == lowerValue
  | .ne => jsToLower (jsString fact.value) != lowerValue
  | _ =>
      match jsParseFloat (jsString fact.value), jsParseFloat value with
      | some a, some b => opNumHolds operator a b
      | _, _ => false

/-- The shared fall-through of both matchers for a term that is not a
usable key/operator/value form: the quoted exact-match branch, else the
regex branch with its substring fallback when the regex fails to
compile.  (`filter.worker.js` is a stated "direct copy" of this code.) -/
def fallbackMatch (compile : String → Option (String → Bool))
    (fact : FactRow) (t : String) : Bool :=
  if jsStartsWith t "\"" ∧ jsEndsWith t "\"" then
    let exactTerm := jsToLower (jsSubstring t 1 (t.length - 1))
    jsToLower fact.host == exactTerm ||
    jsToLower fact.factPath == exactTerm ||
    jsToLower (jsString fact.value) == exactTerm
  else
    match compile t with
    | some test =>
        test fact.host || test fact.factPath || test (jsString fact.value) ||
        (match optStrTruthy fact.modified with
         | some m => test m
         | none => false)
    | none =>
        let lowercasedFilter := jsToLower t
        strIncludes (jsToLower fact.host) lowercasedFilter ||
        strIncludes (jsToLower fact.factPath) lowercasedFilter ||
        strIncludes (jsToLower (jsString fact.value)) lowercasedFilter ||
        (match optStrTruthy fact.modified with
         | some m => strIncludes (jsToLower m) lowercasedFilter
         | none => false)

namespace FactBrowser

/-- `matchesPill` from `FactBrowser.tsx` lines 98–161.  `compile`
models `new RegExp(trimmedPill, 'i')`: `none` when the constructor
throws, otherwise the compiled regex's `test` function. -/
def matchesPill (compile : String → Option (String → Bool))
    (fact : FactRow) (pill : String) : Bool :=
  let trimmedPill := jsTrim pill
  if trimmedPill = "" then true
  else
    match opSplit trimmedPill with
    | some (key, operator, value) =>
        if key ≠ "" ∧ value ≠ "" then
          if !(jsEndsWith (jsToLower fact.factPath) (jsToLower key)) then false
          else valueCompare fact operator value
        else fallbackMatch compile fact trimmedPill
    | none => fallbackMatch compile fact trimmedPill

/-- `matchesLiveSearch` from `FactBrowser.tsx` lines 163–170: plain
case-insensitive substring containment over host, factPath and
`String(value)` only. -/
def matchesLiveSearch (fact : FactRow) (term : String) : Bool :=
  let lowercasedTerm := jsToLower term
  strIncludes (jsToLower fact.host) lowercasedTerm ||
  strIncludes (jsToLower fact.factPath) lowercasedTerm ||
  strIncludes (jsToLower (jsString fact.value)) lowercasedTerm

/-- The `searchedFacts` memo (`FactBrowser.tsx` lines 310–328): pill
filtering (AND across pills) followed by the live-search filter. -/
def searchedFacts (compile : String → Option (String → Bool))
    (allFacts : List FactRow) (searchPills : List String)
    (searchInputValue : String) : List FactRow :=
  let trimmedLiveSearch := jsTrim searchInputValue
  let intermediateFacts :=
    if searchPills.length > 0 then
      allFacts.filter (fun fact =>
        searchPills.all (fun pill => matchesPill compile fact pill))
    else allFacts
  if trimmedLiveSearch = "" then intermediateFacts
  else intermediateFacts.filter (fun fact => matchesLiveSearch fact trimmedLiveSearch)

end FactBrowser

namespace FilterWorker

/-- The worker's unwrapping of a value quoted with a matching pair of
double or single quotes (`filter.worker.js` lines 14–16). -/
def unwrapQuotes (value0 : String) : String :=
  if (jsStartsWith value0 "\"" ∧ jsEndsWith value0 "\"") ∨
     (jsStartsWith value0 "\x27" ∧ jsEndsWith value0 "\x27") then
    jsSubstring value0 1 (value0.length - 1)
  else value0

/-- `matchSingleTerm` from `filter.worker.js` lines 4–77.  Differences
from `FactBrowser.matchesPill`: an empty trimmed term does not match, a
quoted value is unwrapped, and `host`/`hostname` keys compare against
`fact.host`. -/
def matchSingleTerm (compile : String → Option (String → Bool))
    (fact : FactRow) (term : String) : Bool :=
  let trimmedTerm := jsTrim term
  if trimmedTerm = "" then false
  else
    match opSplit trimmedTerm with
    | some (key, operator, value0) =>
        if key ≠ "" ∧ value0 ≠ "" then
          let value := unwrapQuotes value0
          let lowerKey := jsToLower key
          if lowerKey = "host" ∨ lowerKey = "hostname" then
            let hostValue := jsToLower fact.host
            match operator with
            | .eq => hostValue == jsToLower value
            | .ne => hostValue != jsToLower value
            | _ => false
          else if !(jsEndsWith (jsToLower fact.factPath) lowerKey) then false
          else valueCompare fact operator value
        else fallbackMatch compile fact trimmedTerm
    | none => fallbackMatch compile fact trimmedTerm

/-- `matchesPill` from `filter.worker.js` lines 80–85: split the pill on
`|` and succeed when any sub-term matches. -/
def matchesPill (compile : String → Option (String → Bool))
    (fact : FactRow) (pill : String) : Bool :=
  let trimmedPill := jsTrim pill
  if trimmedPill = "" then true
  else (jsSplitBar trimmedPill).any (fun term => matchSingleTerm compile fact term)

/-- The filtering loop of the worker's `onmessage` handler
(`filter.worker.js` lines 98–100): keep facts matching every filter. -/
def onmessageFilter (compile : String → Option (String → Bool))
    (allFacts : List FactRow) (allFilters : List String) : List FactRow :=
  allFacts.filter (fun fact =>
    allFilters.all (fun filter => matchesPill compile fact filter))

end FilterWorker

/-- Property assignment on a JavaScript object
(`obj[k] = v`): an existing key keeps its position and gets the new
value, a new key is appended. -/
def objSet (m : List (String × FactValue)) (k : String) (v : FactValue) :
    List (String × FactValue) :=
  if m.any (fun kv => kv.1 == k) then
    m.map (fun kv => if kv.1 == k then (kv.1, v) else kv)
  else m ++ [(k, v)]

/-- `Set.prototype.add` on an insertion-ordered string set. -/
def insertIfNew (l : List String) (x : String) : List String :=
  if l.contains x then l else l ++ [x]

/-- The result shape of `pivotFactsForExport`: `data` is
`Object.values(hostsData)` (one record per host, a `hostname` field plus
one field per observed fact path), `headers` the column list. -/
structure PivotResult where
  data : List (List (String × FactValue))
  headers : List String
deriving DecidableEq

/-- The body of the `facts.forEach` loop of `pivotFactsForExport`
(`FactBrowser.tsx` lines 82–90), acting on the accumulated
`(hostsData, allFactPaths)` pair. -/
def pivotStep (acc : List (String × List (String × FactValue)) × List String)
    (fact : FactRow) :
    List (String × List (String × FactValue)) × List String :=
  if fact.factPath ≠ "---" then
    let hostsData :=
      if acc.1.any (fun e => e.1 == fact.host) then acc.1
      else acc.1 ++ [(fact.host, [("hostname", FactValue.str fact.host)])]
    let hostsData := hostsData.map (fun e =>
      if e.1 == fact.host then (e.1, objSet e.2 fact.factPath fact.value) else e)
    (hostsData, insertIfNew acc.2 fact.factPath)
  else acc

/-- JavaScript `Array.prototype.sort()` with the default comparator on
an array of strings, modelled as a stable sort by `≤` (JavaScript
compares UTF-16 code units, Lean characters; they agree outside the
supplementary planes). -/
def jsSortStrings (l : List String) : List String :=
  l.mergeSort (fun a b => decide (a ≤ b))

/-- `pivotFactsForExport` (`FactBrowser.tsx` lines 74–96). -/
def pivotFactsForExport (facts : List FactRow) : PivotResult :=
  if facts = [] then ⟨[], []⟩
  else
    let acc := facts.foldl pivotStep ([], [])
    ⟨acc.1.map (fun e => e.2), "hostname" :: jsSortStrings acc.2⟩

/-- First-occurrence deduplication (`new Set(...)` in insertion
order). -/
def dedupFirst (l : List String) : List String := l.foldl insertIfNew []

/-- The non-sentinel rows of a collection (`fact.factPath !== '---'`). -/
def nonSentinel (facts : List FactRow) : List FactRow :=
  facts.filter (fun f => f.factPath ≠ "---")

/-- Reference regrouping used to state correctness of
`pivotFactsForExport`: the record the pivot builds for host `h` —
`hostname` first, then `h`'s non-sentinel rows applied in order
(later duplicates of a path overwrite earlier ones). -/
def recFor (h : String) (facts : List FactRow) : List (String × FactValue) :=
  ((nonSentinel facts).filter (fun f => f.host == h)).foldl
    (fun r f => objSet r f.factPath f.value) [("hostname", .str h)]

/-- `SortDirection` from `src/types.ts`. -/
inductive SortDirection where
  | ascending
  | descending
deriving DecidableEq

/-- `SortConfig` from `src/types.ts`. -/
structure SortConfig where
  key : String
  direction : SortDirection

/-- JavaScript `a[key]` on a `FactRow`, as seen by the sort comparator's
`== null` test: `undefined` (unknown key, absent `modified`) and a
`null` value are both `none`. -/
def getRowField (fact : FactRow) : String → Option FactValue
  | "id" => some (.str fact.id)
  | "host" => some (.str fact.host)
  | "factPath" => some (.str fact.factPath)
  | "value" =>
      match fact.value with
      | .null => none
      | v => some v
  | "modified" => fact.modified.map .str
  | _ => none

/-- JavaScript `a[key]` on a pivot record, as seen by the comparator's
`== null` test. -/
def getRecField (rec : List (String × FactValue)) (key : String) : Option FactValue :=
  match jsLookup rec key with
  | some .null => none
  | some v => some v
  | none => none

/-- The comparator of the `sortedListFacts` memo (`FactBrowser.tsx`
lines 379–398).  `lc` models `String.prototype.localeCompare` with
`{ numeric: true, sensitivity: 'base' }`; `getTime` models
`new Date(s).getTime()` with `none` for `NaN` (so `(t || 0)` is
`(getTime s).getD 0`). -/
def listRowCmp (lc : String → String → Int) (getTime : String → Option Int)
    (cfg : SortConfig) (a b : FactRow) : Int :=
  match getRowField a cfg.key, getRowField b cfg.key with
  | none, none => 0
  | none, some _ => 1
  | some _, none => -1
  | some x, some y =>
      let comparison : Int :=
        if cfg.key = "modified" then
          ((getTime (jsString x)).getD 0) - ((getTime (jsString y)).getD 0)
        else lc (jsString x) (jsString y)
      match cfg.direction with
      | .ascending => comparison
      | .descending => -comparison

/-- The sorting step of the `sortedListFacts` memo: a stable sort of the
filtered rows by the comparator (JavaScript's `Array.prototype.sort` is
stable). -/
def sortedListFacts (lc : String → String → Int) (getTime : String → Option Int)
    (sortConfig : SortConfig) (filteredFacts : List FactRow) : List FactRow :=
  filteredFacts.mergeSort (fun a b => decide (listRowCmp lc getTime sortConfig a b ≤ 0))

/-- The comparator of the `sortedPivotedData` memo (`FactBrowser.tsx`
lines 409–420); no timestamp special case here. -/
def pivotRecCmp (lc : String → String → Int) (cfg : SortConfig)
    (a b : List (String × FactValue)) : Int :=
  match getRecField a cfg.key, getRecField b cfg.key with
  | none, none => 0
  | none, some _ => 1
  | some _, none => -1
  | some x, some y =>
      let comparison : Int := lc (jsString x) (jsString y)
      match cfg.direction with
      | .ascending => comparison
      | .descending => -comparison

/-- The sorting step of the `sortedPivotedData` memo: sorts the pivot
records, keeps the headers. -/
def sortedPivotedData (lc : String → String → Int) (sortConfig : SortConfig)
    (pivotedData : PivotResult) : PivotResult :=
  { pivotedData with
    data := pivotedData.data.mergeSort
      (fun a b => decide (pivotRecCmp lc sortConfig a b ≤ 0)) }

/-- The `hostsData` component of one `pivotStep`, split out so the two
components of the fold can be reasoned about separately. -/
def stepHosts (hd : List (String × List (String × FactValue))) (fact : FactRow) :
    List (String × List (String × FactValue)) :=
  if fact.factPath ≠ "---" then
    (if hd.any (fun e => e.1 == fact.host) then hd
     else hd ++ [(fact.host, [("hostname", FactValue.str fact.host)])]).map
      (fun e => if e.1 == fact.host then (e.1, objSet e.2 fact.factPath fact.value) else e)
  else hd

/-- The `allFactPaths` component of one `pivotStep`. -/
def stepPaths (paths : List String) (fact : FactRow) : List String :=
  if fact.factPath ≠ "---" then insertIfNew paths fact.factPath else paths

/-- A regex environment in which every construction throws, used to
instantiate the matchers on concrete inputs whose evaluation never
reaches the regex branch (or exercises its substring fallback). -/
def noRegex : String → Option (String → Bool) := fun _ => none

theorem jsTrim_empty : jsTrim "" = "" := rfl

theorem opSplit_empty : opSplit "" = none := by decide

/-- C10: the `flatten` helper applies its
`key !== '__awx_facts_modified_timestamp'` filter to the entry list of
every object it recurses into, so an entry carrying the reserved key —
at any depth, with any value — contributes nothing to the flattened
output: deleting it from the entry list leaves the output unchanged. -/
theorem c10_timestamp_excluded_at_every_depth
    (l1 l2 : List (String × Json)) (j : Json) (path : List String) :
    flattenObj (l1 ++ (tsKey, j) :: l2) path = flattenObj (l1 ++ l2) path := by
  induction l1 with
  | nil => simp [flattenObj]
  | cons hd tl ih =>
      cases hd with
      | mk k v => simp [flattenObj, ih]

theorem host_of_mem_hostRows (x : String × List (String × Json)) (r : FactRow)
    (hr : r ∈ hostRows x) : r.host = x.1 := by
  unfold hostRows at hr
  split at hr
  · simp at hr
    subst hr
    rfl
  · rw [List.mem_map] at hr
    obtain ⟨p, hp, rfl⟩ := hr
    rfl

theorem host_mem_of_mem_flattenFactsForTable (l : AllHostFacts) (r : FactRow)
    (hr : r ∈ flattenFactsForTable l) : r.host ∈ l.map Prod.fst := by
  unfold flattenFactsForTable at hr
  rw [List.mem_flatMap] at hr
  obtain ⟨x, hx, hrx⟩ := hr
  rw [host_of_mem_hostRows x r hrx]
  exact List.mem_map_of_mem _ hx

theorem rowsForHost_eq (snap : AllHostFacts) (host : String)
    (entries : List (String × Json))
    (hnodup : (snap.map Prod.fst).Nodup) (hmem : (host, entries) ∈ snap) :
    (flattenFactsForTable snap).filter (fun r => r.host == host) =
      (if flattenObj entries [] = [] then [sentinelRow host (tsOf entries)]
       else (flattenObj entries []).map (factRowOf host (tsOf entries))) := by
  induction snap with
  | nil => simp at hmem
  | cons hd tl ih =>
      have hexpand : flattenFactsForTable (hd :: tl) =
          hostRows hd ++ flattenFactsForTable tl := by
        unfold flattenFactsForTable
        rw [List.flatMap_cons]
      rw [hexpand, List.filter_append]
      rcases List.mem_cons.mp hmem with heq | htl
      · have hhd1 : hd.1 = host := by rw [← heq]
        have hnotin : host ∉ tl.map Prod.fst := by
          rw [List.map_cons] at hnodup
          rw [← hhd1]
          exact (List.nodup_cons.mp hnodup).1
        have h1 : (hostRows hd).filter (fun r => r.host == host) = hostRows hd := by
          rw [List.filter_eq_self]
          intro a ha
          rw [beq_iff_eq, host_of_mem_hostRows hd a ha, hhd1]
        have h2 : (flattenFactsForTable tl).filter (fun r => r.host == host) = [] := by
          rw [List.filter_eq_nil_iff]
          intro a ha hba
          rw [beq_iff_eq] at hba
          exact hnotin (hba ▸ host_mem_of_mem_flattenFactsForTable tl a ha)
        rw [h1, h2, List.append_nil]
        rw [← heq]
        rfl
      · have hne : hd.1 ≠ host := by
          intro hcontra
          rw [List.map_cons] at hnodup
          exact (List.nodup_cons.mp hnodup).1
            (hcontra ▸ (List.mem_map_of_mem Prod.fst htl : host ∈ tl.map Prod.fst))
        have h1 : (hostRows hd).filter (fun r => r.host == host) = [] := by
          rw [List.filter_eq_nil_iff]
          intro a ha hba
          rw [beq_iff_eq] at hba
          exact hne (by rw [← host_of_mem_hostRows hd a ha, hba])
        rw [h1, List.nil_append]
        exact ih (by rw [List.map_cons] at hnodup; exact (List.nodup_cons.mp hnodup).2) htl

/-- C6: for a snapshot with distinct host keys, the rows the row model
builder emits for a given host are exactly the sentinel row when the
host flattens to zero leaf pairs, and exactly one row per leaf pair
otherwise; in particular the number of rows for the host is `max 1 L`
where `L` is the host's leaf count — never zero, and never a mix of
both kinds. -/
theorem c6_rows_per_host (snap : AllHostFacts) (host : String)
    (entries : List (String × Json))
    (hnodup : (snap.map Prod.fst).Nodup) (hmem : (host, entries) ∈ snap) :
    ((flattenFactsForTable snap).filter (fun r => r.host == host) =
      (if flattenObj entries [] = [] then [sentinelRow host (tsOf entries)]
       else (flattenObj entries []).map (factRowOf host (tsOf entries)))) ∧
    ((flattenFactsForTable snap).filter (fun r => r.host == host)).length =
      max 1 (flattenObj entries []).length := by
  have heq := rowsForHost_eq snap host entries hnodup hmem
  refine ⟨heq, ?_⟩
  rw [heq]
  by_cases hfl : flattenObj entries [] = []
  · rw [if_pos hfl, hfl]
    rfl
  · rw [if_neg hfl, List.length_map]
    have hpos : 0 < (flattenObj entries []).length := List.length_pos.mpr hfl
    omega

/-- Witness for C6 at a concrete two-host snapshot: `h1` has zero leaf
facts and gets exactly the sentinel row. -/
theorem c6_witness :
    (([("h1", []), ("h2", [("f", Json.str "v")])] : AllHostFacts).map Prod.fst).Nodup ∧
    (flattenFactsForTable
        ([("h1", []), ("h2", [("f", Json.str "v")])] : AllHostFacts)).filter
      (fun r => r.host == "h1") = [sentinelRow "h1" none] := by
  refine ⟨by decide, ?_⟩
  have h := (c6_rows_per_host ([("h1", []), ("h2", [("f", Json.str "v")])] : AllHostFacts)
    "h1" [] (by decide) (List.mem_cons_self _ _)).1
  rw [h]
  decide

theorem takeWhile_hyphen_append (h rest : List Char)
    (hh : ∀ c ∈ h, (c != '-') = true) :
    (h ++ '-' :: rest).takeWhile (fun c => c != '-') = h := by
  induction h with
  | nil => simp [List.takeWhile_cons]
  | cons c cs ih =>
      rw [List.cons_append, List.takeWhile_cons, if_pos (hh c (by simp))]
      rw [ih (fun d hd => hh d (by simp [hd]))]

theorem id_firstSeg (x : String × List (String × Json))
    (hx : ∀ c ∈ x.1.data, (c != '-') = true)
    (r : FactRow) (hr : r ∈ hostRows x) :
    r.id.data.takeWhile (fun c => c != '-') = x.1.data := by
  unfold hostRows at hr
  split at hr
  · simp at hr
    subst hr
    show ((x.1 ++ "-no-facts").data.takeWhile fun c => c != '-') = x.1.data
    rw [String.data_append]
    have hnf : ("-no-facts" : String).data = '-' :: ("no-facts" : String).data := by decide
    rw [hnf, takeWhile_hyphen_append _ _ hx]
  · rw [List.mem_map] at hr
    obtain ⟨p, hp, rfl⟩ := hr
    show ((x.1 ++ "-" ++ p.1).data.takeWhile fun c => c != '-') = x.1.data
    rw [String.data_append, String.data_append]
    have hdash : ("-" : String).data = ['-'] := by decide
    rw [hdash, List.append_assoc]
    exact takeWhile_hyphen_append _ _ hx

theorem string_append_left_injective (a : String) :
    Function.Injective (fun s => a ++ s) := by
  intro s t h
  apply String.ext
  have h2 := congrArg String.data h
  simp only [String.data_append] at h2
  exact List.append_cancel_left h2

theorem hostRows_ids_nodup (x : String × List (String × Json))
    (hpaths : ((flattenObj x.2 []).map Prod.fst).Nodup) :
    ((hostRows x).map (fun r => r.id)).Nodup := by
  unfold hostRows
  split
  · simp
  · rw [List.map_map]
    have hcomp : ((fun r => r.id) ∘ factRowOf x.1 (tsOf x.2)) =
        (fun s => (x.1 ++ "-") ++ s) ∘ Prod.fst := rfl
    rw [hcomp, ← List.map_map]
    exact hpaths.map (string_append_left_injective (x.1 ++ "-"))

/-- C9 (amended): row ids are the deterministic strings
`host ++ "-" ++ factPath` (and `host ++ "-no-facts"` for the sentinel);
they are pairwise distinct provided the host names are distinct and
hyphen-free and each host's flattened fact paths are distinct.  Without
those provisos distinct rows can collide (see the counterexample). -/
theorem c9_id_uniqueness (snap : AllHostFacts)
    (hnodup : (snap.map Prod.fst).Nodup)
    (hhy : ∀ x ∈ snap, ∀ c ∈ x.1.data, (c != '-') = true)
    (hpaths : ∀ x ∈ snap, ((flattenObj x.2 []).map Prod.fst).Nodup) :
    ((flattenFactsForTable snap).map (fun r => r.id)).Nodup := by
  unfold flattenFactsForTable
  rw [List.map_flatMap, List.nodup_flatMap]
  refine ⟨fun x hx => hostRows_ids_nodup x (hpaths x hx), ?_⟩
  have hp : List.Pairwise (fun a b => a.1 ≠ b.1) snap := List.pairwise_map.mp hnodup
  refine hp.imp_of_mem ?_
  intro a b ha hb hne
  simp only [Function.onFun]
  intro i hia hib
  rw [List.mem_map] at hia hib
  obtain ⟨r, hra, rfl⟩ := hia
  obtain ⟨r2, hrb, heq⟩ := hib
  have h1 := id_firstSeg a (hhy a ha) r hra
  have h2 := id_firstSeg b (hhy b hb) r2 hrb
  rw [heq] at h2
  exact hne (String.ext (h1.symm.trans h2))

/-- Counterexample to C9 as stated: hosts `a` (with fact `b-c`) and
`a-b` (with fact `c`) both produce the id `"a-b-c"`, so ids are not
pairwise distinct within this snapshot. -/
theorem c9_counterexample :
    ((flattenFactsForTable
        [("a", [("b-c", Json.num ⟨1, 0⟩)]), ("a-b", [("c", Json.num ⟨2, 0⟩)])]).map
      (fun r => r.id)) = ["a-b-c", "a-b-c"] ∧
    ¬ ((flattenFactsForTable
        [("a", [("b-c", Json.num ⟨1, 0⟩)]), ("a-b", [("c", Json.num ⟨2, 0⟩)])]).map
      (fun r => r.id)).Nodup := by
  exact ⟨by decide, by decide⟩

/-- Witness for C9 at a concrete snapshot satisfying the provisos. -/
theorem c9_witness :
    (([("h1", [("f", Json.str "v")]), ("h2", [])] : AllHostFacts).map Prod.fst).Nodup ∧
    ((flattenFactsForTable
        ([("h1", [("f", Json.str "v")]), ("h2", [])] : AllHostFacts)).map
      (fun r => r.id)).Nodup := by
  refine ⟨by decide, ?_⟩
  exact c9_id_uniqueness _ (by decide) (by decide) (by decide)

theorem mem_searchedFacts_iff (compile : String → Option (String → Bool))
    (allFacts : List FactRow) (P : List String) (live : String) (r : FactRow) :
    r ∈ FactBrowser.searchedFacts compile allFacts P live ↔
      r ∈ allFacts ∧ (∀ q ∈ P, FactBrowser.matchesPill compile r q = true) ∧
        (jsTrim live ≠ "" → FactBrowser.matchesLiveSearch r (jsTrim live) = true) := by
  unfold FactBrowser.searchedFacts
  by_cases hl : jsTrim live = ""
  · rw [if_pos hl]
    by_cases hp : P.length > 0
    · rw [if_pos hp]
      simp [List.mem_filter, List.all_eq_true, hl]
    · rw [if_neg hp]
      have hP : P = [] := List.length_eq_zero.mp (Nat.eq_zero_of_not_pos hp)
      subst hP
      simp [hl]
  · rw [if_neg hl]
    by_cases hp : P.length > 0
    · rw [if_pos hp]
      simp only [List.mem_filter, List.all_eq_true]
      constructor
      · rintro ⟨⟨h1, h2⟩, h3⟩
        exact ⟨h1, h2, fun _ => h3⟩
      · rintro ⟨h1, h2, h3⟩
        exact ⟨⟨h1, h2⟩, h3 hl⟩
    · rw [if_neg hp]
      have hP : P = [] := List.length_eq_zero.mp (Nat.eq_zero_of_not_pos hp)
      subst hP
      simp only [List.mem_filter]
      constructor
      · rintro ⟨h1, h3⟩
        exact ⟨h1, by simp, fun _ => h3⟩
      · rintro ⟨h1, _, h3⟩
        exact ⟨h1, h3 hl⟩

theorem mem_onmessageFilter_iff (compile : String → Option (String → Bool))
    (allFacts : List FactRow) (P : List String) (r : FactRow) :
    r ∈ FilterWorker.onmessageFilter compile allFacts P ↔
      r ∈ allFacts ∧ (∀ q ∈ P, FilterWorker.matchesPill compile r q = true) := by
  unfold FilterWorker.onmessageFilter
  simp [List.mem_filter, List.all_eq_true]

/-- C2: in both the main-thread pipeline (`searchedFacts` with an empty
live term) and the worker's `onmessage` filter, a row survives pill
filtering iff it matches every pill independently; consequently removing
any one pill can only preserve or grow the surviving set. -/
theorem c2_and_semantics_monotone (compile : String → Option (String → Bool))
    (allFacts : List FactRow) (P P1 P2 : List String) (p : String) (r : FactRow) :
    (r ∈ FactBrowser.searchedFacts compile allFacts P "" ↔
      r ∈ allFacts ∧ ∀ q ∈ P, FactBrowser.matchesPill compile r q = true) ∧
    (r ∈ FactBrowser.searchedFacts compile allFacts (P1 ++ p :: P2) "" →
      r ∈ FactBrowser.searchedFacts compile allFacts (P1 ++ P2) "") ∧
    (r ∈ FilterWorker.onmessageFilter compile allFacts P ↔
      r ∈ allFacts ∧ ∀ q ∈ P, FilterWorker.matchesPill compile r q = true) ∧
    (r ∈ FilterWorker.onmessageFilter compile allFacts (P1 ++ p :: P2) →
      r ∈ FilterWorker.onmessageFilter compile allFacts (P1 ++ P2)) := by
  refine ⟨?_, ?_, ?_, ?_⟩
  · rw [mem_searchedFacts_iff]
    simp [jsTrim_empty]
  · intro h
    rw [mem_searchedFacts_iff] at h ⊢
    obtain ⟨h1, h2, h3⟩ := h
    refine ⟨h1, fun q hq => h2 q ?_, h3⟩
    rw [List.mem_append] at hq ⊢
    rcases hq with hq | hq
    · exact Or.inl hq
    · exact Or.inr (List.mem_cons_of_mem p hq)
  · exact mem_onmessageFilter_iff compile allFacts P r
  · intro h
    rw [mem_onmessageFilter_iff] at h ⊢
    obtain ⟨h1, h2⟩ := h
    refine ⟨h1, fun q hq => h2 q ?_⟩
    rw [List.mem_append] at hq ⊢
    rcases hq with hq | hq
    · exact Or.inl hq
    · exact Or.inr (List.mem_cons_of_mem p hq)

/-- Witness for C2: a concrete row passes a concrete one-pill filter. -/
theorem c2_witness :
    (⟨"h1-d", "h1", "ansible_distribution", FactValue.str "Ubuntu", none⟩ : FactRow) ∈
      FactBrowser.searchedFacts noRegex
        [⟨"h1-d", "h1", "ansible_distribution", FactValue.str "Ubuntu", none⟩]
        ["distribution=Ubuntu"] "" := by
  exact (c2_and_semantics_monotone noRegex
      [⟨"h1-d", "h1", "ansible_distribution", FactValue.str "Ubuntu", none⟩]
      ["distribution=Ubuntu"] [] [] ""
      ⟨"h1-d", "h1", "ansible_distribution", FactValue.str "Ubuntu", none⟩).1.mpr
    ⟨by decide, by decide⟩

/-- Counterexample to C3 as stated: the main-thread matcher
(`FactBrowser.matchesPill`) performs no OR-split on `|` — on the term
`a=1|b=2` it parses key `a`, value `1|b=2` and rejects a row that the
worker's splitting matcher accepts via the sub-term `b=2`. -/
theorem c3_counterexample :
    FactBrowser.matchesPill noRegex ⟨"i", "h", "b", FactValue.str "2", none⟩
      "a=1|b=2" = false ∧
    FilterWorker.matchesPill noRegex ⟨"i", "h", "b", FactValue.str "2", none⟩
      "a=1|b=2" = true := by
  exact ⟨by decide, by decide⟩

/-- C3 (amended): the worker matcher (`filter.worker.js`) splits the
trimmed pill on `|` and succeeds iff at least one sub-term matches under
the sub-term rules; the main-thread `FactBrowser.matchesPill` performs no
such split (see the counterexample). -/
theorem c3_worker_or_split (compile : String → Option (String → Bool))
    (fact : FactRow) (pill : String) (hbar : '|' ∈ (jsTrim pill).data) :
    FilterWorker.matchesPill compile fact pill = true ↔
      ∃ t ∈ jsSplitBar (jsTrim pill),
        FilterWorker.matchSingleTerm compile fact t = true := by
  unfold FilterWorker.matchesPill
  have hne : jsTrim pill ≠ "" := by
    intro h
    rw [h] at hbar
    exact absurd hbar (by decide)
  rw [if_neg hne]
  exact List.any_eq_true

/-- Witness for C3 at a concrete pill containing `|`. -/
theorem c3_witness :
    '|' ∈ (jsTrim "a=1|b=2").data ∧
    (FilterWorker.matchesPill noRegex ⟨"i", "h", "b", FactValue.str "2", none⟩
        "a=1|b=2" = true ↔
      ∃ t ∈ jsSplitBar (jsTrim "a=1|b=2"),
        FilterWorker.matchSingleTerm noRegex ⟨"i", "h", "b", FactValue.str "2", none⟩
          t = true) :=
  ⟨by decide, c3_worker_or_split noRegex _ _ (by decide)⟩

/-- Counterexample to C4 as stated: on the term `a=b` and a row with
`factPath = "a"`, `value = "b"`, the live-search check (plain substring
containment) rejects while the pill matcher (operator grammar) accepts —
the two are not extensionally equal. -/
theorem c4_counterexample :
    FactBrowser.matchesLiveSearch ⟨"i", "h", "a", FactValue.str "b", none⟩ "a=b" = false ∧
    FactBrowser.matchesPill noRegex ⟨"i", "h", "a", FactValue.str "b", none⟩ "a=b" = true := by
  exact ⟨by decide, by decide⟩

/-- C4 (amended): the live-term step of `searchedFacts` keeps exactly the
rows whose lowercased host, factPath or `String(value)` contains the
lowercased trimmed term as a substring — a simplified check that ignores
the pill grammar (no operator, quote, regex, OR or `modified`
handling). -/
theorem c4_live_search_substring_semantics (compile : String → Option (String → Bool))
    (allFacts : List FactRow) (P : List String) (live : String) (r : FactRow) :
    r ∈ FactBrowser.searchedFacts compile allFacts P live ↔
      r ∈ allFacts ∧ (∀ q ∈ P, FactBrowser.matchesPill compile r q = true) ∧
        (jsTrim live ≠ "" →
          (strIncludes (jsToLower r.host) (jsToLower (jsTrim live)) ||
           strIncludes (jsToLower r.factPath) (jsToLower (jsTrim live)) ||
           strIncludes (jsToLower (jsString r.value)) (jsToLower (jsTrim live))) = true) := by
  rw [mem_searchedFacts_iff]
  rfl

theorem fb_matchesPill_op_shape (compile : String → Option (String → Bool))
    (fact : FactRow) (pill k v : String) (op : Op)
    (hsplit : opSplit (jsTrim pill) = some (k, op, v))
    (hk : k ≠ "") (hv : v ≠ "") :
    FactBrowser.matchesPill compile fact pill =
      (if !(jsEndsWith (jsToLower fact.factPath) (jsToLower k)) then false
       else valueCompare fact op v) := by
  unfold FactBrowser.matchesPill
  have hne : jsTrim pill ≠ "" := by
    intro h
    rw [h, opSplit_empty] at hsplit
    exact Option.noConfusion hsplit
  simp only [if_neg hne, hsplit]
  rw [if_pos (show k ≠ "" ∧ v ≠ "" from ⟨hk, hv⟩)]

theorem worker_matchSingleTerm_op_shape (compile : String → Option (String → Bool))
    (fact : FactRow) (pill k v : String) (op : Op)
    (hsplit : opSplit (jsTrim pill) = some (k, op, v))
    (hk : k ≠ "") (hv : v ≠ "")
    (hhost : jsToLower k ≠ "host" ∧ jsToLower k ≠ "hostname") :
    FilterWorker.matchSingleTerm compile fact pill =
      (if !(jsEndsWith (jsToLower fact.factPath) (jsToLower k)) then false
       else valueCompare fact op (FilterWorker.unwrapQuotes v)) := by
  unfold FilterWorker.matchSingleTerm
  have hne : jsTrim pill ≠ "" := by
    intro h
    rw [h, opSplit_empty] at hsplit
    exact Option.noConfusion hsplit
  simp only [if_neg hne, hsplit]
  rw [if_pos (show k ≠ "" ∧ v ≠ "" from ⟨hk, hv⟩)]
  rw [if_neg (not_or.mpr hhost)]

theorem valueCompare_ordering (fact : FactRow) (op : Op) (v : String)
    (hord : op = .gt ∨ op = .lt ∨ op = .ge ∨ op = .le)
    (htrue : valueCompare fact op v = true) :
    ∃ a b, jsParseFloat (jsString fact.value) = some a ∧ jsParseFloat v = some b ∧
      opNumHolds op a b = true := by
  unfold valueCompare at htrue
  rcases hord with rfl | rfl | rfl | rfl <;>
  · cases h1 : jsParseFloat (jsString fact.value) with
    | none => rw [h1] at htrue; simp at htrue
    | some a =>
        cases h2 : jsParseFloat v with
        | none => rw [h1, h2] at htrue; simp at htrue
        | some b =>
            rw [h1, h2] at htrue
            exact ⟨a, b, rfl, rfl, htrue⟩

/-- C1: for any term of key/operator/value form whose key is not
`host`/`hostname`, in both matchers a row can only match if its
`factPath` case-insensitively ends with the key; and for the ordering
operators it can only match if both `String(row.value)` and the search
value (the worker first unwraps value quotes) parse as floats and the
numeric comparison holds — a parse failure on either side is a
non-match. -/
theorem c1_key_operator_value_matching (compile : String → Option (String → Bool))
    (fact : FactRow) (pill k v : String) (op : Op)
    (hsplit : opSplit (jsTrim pill) = some (k, op, v))
    (hk : k ≠ "") (hv : v ≠ "")
    (hhost : jsToLower k ≠ "host" ∧ jsToLower k ≠ "hostname") :
    ((FactBrowser.matchesPill compile fact pill = true →
        jsEndsWith (jsToLower fact.factPath) (jsToLower k) = true) ∧
     (FilterWorker.matchSingleTerm compile fact pill = true →
        jsEndsWith (jsToLower fact.factPath) (jsToLower k) = true)) ∧
    (op = .gt ∨ op = .lt ∨ op = .ge ∨ op = .le →
      (FactBrowser.matchesPill compile fact pill = true →
        ∃ a b, jsParseFloat (jsString fact.value) = some a ∧ jsParseFloat v = some b ∧
          opNumHolds op a b = true) ∧
      (FilterWorker.matchSingleTerm compile fact pill = true →
        ∃ a b, jsParseFloat (jsString fact.value) = some a ∧
          jsParseFloat (FilterWorker.unwrapQuotes v) = some b ∧
          opNumHolds op a b = true)) := by
  rw [fb_matchesPill_op_shape compile fact pill k v op hsplit hk hv,
      worker_matchSingleTerm_op_shape compile fact pill k v op hsplit hk hv hhost]
  cases hew : jsEndsWith (jsToLower fact.factPath) (jsToLower k) with
  | false => simp [hew]
  | true =>
      simp only [hew, Bool.not_true, Bool.false_eq_true, if_false]
      refine ⟨⟨fun _ => by simp [hew], fun _ => by simp [hew]⟩, fun hord => ?_⟩
      exact ⟨valueCompare_ordering fact op v hord, valueCompare_ordering fact op _ hord⟩

/-- Witness for C1 at `vcpus>4` against a row with an 8-vCPU value: the
suffix gate and the numeric comparison are exercised through the
theorem. -/
theorem c1_witness :
    opSplit (jsTrim "vcpus>4") = some ("vcpus", Op.gt, "4") ∧
    (∃ a b, jsParseFloat (jsString (FactValue.num ⟨8, 0⟩)) = some a ∧
      jsParseFloat "4" = some b ∧ opNumHolds Op.gt a b = true) := by
  refine ⟨by decide, ?_⟩
  exact ((c1_key_operator_value_matching noRegex
      ⟨"h1-vc", "h1", "ansible_processor_vcpus", FactValue.num ⟨8, 0⟩, none⟩
      "vcpus>4" "vcpus" "4" Op.gt (by decide) (by decide) (by decide)
      ⟨by decide, by decide⟩).2 (Or.inl rfl)).1 (by decide)

theorem fallbackMatch_included (compile : String → Option (String → Bool)) (fact : FactRow)
    (t : String)
    (hq : ¬ (jsStartsWith t "\"" = true ∧ jsEndsWith t "\"" = true))
    (hre : compile t = none) :
    fallbackMatch compile fact t =
      (strIncludes (jsToLower fact.host) (jsToLower t) ||
       strIncludes (jsToLower fact.factPath) (jsToLower t) ||
       strIncludes (jsToLower (jsString fact.value)) (jsToLower t) ||
       (match optStrTruthy fact.modified with
        | some m => strIncludes (jsToLower m) (jsToLower t)
        | none => false)) := by
  unfold fallbackMatch
  rw [if_neg hq, hre]

/-- C5: a free-text term (no usable operator form, not quote-wrapped)
whose regex construction throws is matched — by both matchers, which
never raise — via case-insensitive substring containment over host,
factPath, `String(value)` and, when present (and non-empty, which is
equivalent for containment of a non-empty term), `modified`. -/
theorem c5_invalid_regex_fallback (compile : String → Option (String → Bool))
    (fact : FactRow) (pill : String)
    (hne : jsTrim pill ≠ "")
    (hop : ∀ k op v, opSplit (jsTrim pill) = some (k, op, v) → k = "" ∨ v = "")
    (hq : ¬ (jsStartsWith (jsTrim pill) "\"" = true ∧ jsEndsWith (jsTrim pill) "\"" = true))
    (hre : compile (jsTrim pill) = none) :
    FactBrowser.matchesPill compile fact pill =
      (strIncludes (jsToLower fact.host) (jsToLower (jsTrim pill)) ||
       strIncludes (jsToLower fact.factPath) (jsToLower (jsTrim pill)) ||
       strIncludes (jsToLower (jsString fact.value)) (jsToLower (jsTrim pill)) ||
       (match optStrTruthy fact.modified with
        | some m => strIncludes (jsToLower m) (jsToLower (jsTrim pill))
        | none => false)) ∧
    FilterWorker.matchSingleTerm compile fact pill =
      (strIncludes (jsToLower fact.host) (jsToLower (jsTrim pill)) ||
       strIncludes (jsToLower fact.factPath) (jsToLower (jsTrim pill)) ||
       strIncludes (jsToLower (jsString fact.value)) (jsToLower (jsTrim pill)) ||
       (match optStrTruthy fact.modified with
        | some m => strIncludes (jsToLower m) (jsToLower (jsTrim pill))
        | none => false)) := by
  have hfb := fallbackMatch_included compile fact (jsTrim pill) hq hre
  constructor
  · unfold FactBrowser.matchesPill
    rw [if_neg hne]
    cases hsp : opSplit (jsTrim pill) with
    | none => simp only [hsp]; exact hfb
    | some kov =>
        obtain ⟨k, op, v⟩ := kov
        have hkv := hop k op v hsp
        simp only [hsp]
        rw [if_neg (show ¬ (k ≠ "" ∧ v ≠ "") from fun h => by
          rcases hkv with h0 | h0
          · exact h.1 h0
          · exact h.2 h0)]
        exact hfb
  · unfold FilterWorker.matchSingleTerm
    rw [if_neg hne]
    cases hsp : opSplit (jsTrim pill) with
    | none => simp only [hsp]; exact hfb
    | some kov =>
        obtain ⟨k, op, v⟩ := kov
        have hkv := hop k op v hsp
        simp only [hsp]
        rw [if_neg (show ¬ (k ≠ "" ∧ v ≠ "") from fun h => by
          rcases hkv with h0 | h0
          · exact h.1 h0
          · exact h.2 h0)]
        exact hfb

/-- Witness for C5: the term `(` (an invalid regex in JavaScript) against
a row whose host contains it literally; the fallback containment check
is reached through the theorem. -/
theorem c5_witness :
    (jsTrim "(" ≠ "" ∧ noRegex (jsTrim "(") = none) ∧
    FactBrowser.matchesPill noRegex ⟨"i", "web-(1", "p", FactValue.str "v", none⟩ "(" =
      (strIncludes (jsToLower (FactRow.mk "i" "web-(1" "p" (FactValue.str "v") none).host)
        (jsToLower (jsTrim "(")) ||
       strIncludes (jsToLower (FactRow.mk "i" "web-(1" "p" (FactValue.str "v") none).factPath)
        (jsToLower (jsTrim "(")) ||
       strIncludes (jsToLower (jsString (FactRow.mk "i" "web-(1" "p" (FactValue.str "v") none).value))
        (jsToLower (jsTrim "(")) ||
       (match optStrTruthy (FactRow.mk "i" "web-(1" "p" (FactValue.str "v") none).modified with
        | some m => strIncludes (jsToLower m) (jsToLower (jsTrim "("))
        | none => false)) := by
  refine ⟨⟨by decide, rfl⟩, ?_⟩
  exact (c5_invalid_regex_fallback noRegex ⟨"i", "web-(1", "p", FactValue.str "v", none⟩ "("
    (by decide)
    (fun k op v h => by
      rw [show opSplit (jsTrim "(") = none from by decide] at h
      exact Option.noConfusion h)
    (by decide) rfl).1
theorem pivotStep_eq (acc : List (String × List (String × FactValue)) × List String)
    (fact : FactRow) :
    pivotStep acc fact = (stepHosts acc.1 fact, stepPaths acc.2 fact) := by
  unfold pivotStep stepHosts stepPaths
  by_cases h : fact.factPath ≠ "---" <;> simp [h]

theorem foldl_pivotStep_split (l : List FactRow)
    (a : List (String × List (String × FactValue))) (b : List String) :
    l.foldl pivotStep (a, b) = (l.foldl stepHosts a, l.foldl stepPaths b) := by
  induction l generalizing a b with
  | nil => rfl
  | cons f t ih =>
      rw [List.foldl_cons, List.foldl_cons, List.foldl_cons, pivotStep_eq]
      exact ih _ _

theorem nonSentinel_cons_pos (f : FactRow) (t : List FactRow) (h : f.factPath ≠ "---") :
    nonSentinel (f :: t) = f :: nonSentinel t := by
  unfold nonSentinel
  rw [List.filter_cons_of_pos (by simpa using h)]

theorem nonSentinel_cons_neg (f : FactRow) (t : List FactRow) (h : ¬ f.factPath ≠ "---") :
    nonSentinel (f :: t) = nonSentinel t := by
  unfold nonSentinel
  rw [List.filter_cons_of_neg (by simpa using h)]

theorem foldl_stepPaths_eq (l : List FactRow) (b : List String) :
    l.foldl stepPaths b = ((nonSentinel l).map (fun f => f.factPath)).foldl insertIfNew b := by
  induction l generalizing b with
  | nil => rfl
  | cons f t ih =>
      rw [List.foldl_cons]
      by_cases h : f.factPath ≠ "---"
      · rw [nonSentinel_cons_pos f t h, List.map_cons, List.foldl_cons]
        unfold stepPaths
        rw [if_pos h]
        exact ih _
      · rw [nonSentinel_cons_neg f t h]
        unfold stepPaths
        rw [if_neg h]
        exact ih _

theorem nonSentinel_append_single (t : List FactRow) (f : FactRow) :
    nonSentinel (t ++ [f]) =
      nonSentinel t ++ (if f.factPath ≠ "---" then [f] else []) := by
  unfold nonSentinel
  rw [List.filter_append]
  congr 1
  by_cases h : f.factPath ≠ "---" <;> simp [h]

theorem recFor_append_single (h : String) (t : List FactRow) (f : FactRow) :
    recFor h (t ++ [f]) =
      (if f.factPath ≠ "---" ∧ f.host = h then objSet (recFor h t) f.factPath f.value
       else recFor h t) := by
  unfold recFor
  rw [nonSentinel_append_single]
  by_cases h1 : f.factPath ≠ "---"
  · rw [if_pos h1, List.filter_append, List.foldl_append]
    by_cases h2 : f.host = h
    · rw [if_pos (show (f.factPath ≠ "---") ∧ f.host = h from ⟨h1, h2⟩)]
      simp [h2]
    · rw [if_neg (show ¬ ((f.factPath ≠ "---") ∧ f.host = h) from fun hc => h2 hc.2)]
      simp [h2]
  · rw [if_neg h1, List.filter_append, List.foldl_append]
    rw [if_neg (show ¬ ((f.factPath ≠ "---") ∧ f.host = h) from fun hc => h1 hc.1)]
    simp

theorem mem_foldl_insertIfNew (l : List String) (acc : List String) (x : String) :
    x ∈ l.foldl insertIfNew acc ↔ x ∈ acc ∨ x ∈ l := by
  induction l generalizing acc with
  | nil => simp
  | cons a t ih =>
      rw [List.foldl_cons, ih]
      unfold insertIfNew
      by_cases h : acc.contains a
      · rw [if_pos h]
        have ha : a ∈ acc := by simpa using h
        simp only [List.mem_cons]
        constructor
        · rintro (hx | hx)
          · exact Or.inl hx
          · exact Or.inr (Or.inr hx)
        · rintro (hx | hx | hx)
          · exact Or.inl hx
          · exact Or.inl (hx ▸ ha)
          · exact Or.inr hx
      · rw [if_neg h]
        simp only [List.mem_append, List.mem_singleton, List.mem_cons]
        tauto

theorem nodup_foldl_insertIfNew (l acc : List String) (hacc : acc.Nodup) :
    (l.foldl insertIfNew acc).Nodup := by
  induction l generalizing acc with
  | nil => exact hacc
  | cons a t ih =>
      rw [List.foldl_cons]
      apply ih
      unfold insertIfNew
      by_cases h : acc.contains a
      · rwa [if_pos h]
      · rw [if_neg h]
        have ha : a ∉ acc := by simpa using h
        exact List.Nodup.append hacc (List.nodup_singleton a)
          (by simpa [List.disjoint_singleton] using ha)

theorem dedupFirst_nodup (l : List String) : (dedupFirst l).Nodup :=
  nodup_foldl_insertIfNew l [] List.nodup_nil

theorem mem_dedupFirst (l : List String) (x : String) : x ∈ dedupFirst l ↔ x ∈ l := by
  unfold dedupFirst
  rw [mem_foldl_insertIfNew]
  simp

theorem recFor_not_mem (h : String) (t : List FactRow)
    (hnm : h ∉ (nonSentinel t).map (fun f => f.host)) :
    recFor h t = [("hostname", .str h)] := by
  unfold recFor
  have : (nonSentinel t).filter (fun f => f.host == h) = [] := by
    rw [List.filter_eq_nil_iff]
    intro a ha hba
    rw [beq_iff_eq] at hba
    exact hnm (hba ▸ List.mem_map_of_mem (fun f => f.host) ha)
  rw [this]
  rfl

theorem dedupFirst_append_single (xs : List String) (x : String) :
    dedupFirst (xs ++ [x]) = insertIfNew (dedupFirst xs) x := by
  unfold dedupFirst
  rw [List.foldl_append]
  rfl

theorem foldl_stepHosts_eq (l : List FactRow) :
    l.foldl stepHosts [] =
      (dedupFirst ((nonSentinel l).map (fun f => f.host))).map (fun h => (h, recFor h l)) := by
  induction l using List.reverseRecOn with
  | nil => rfl
  | append_singleton t f ih =>
      rw [List.foldl_append, List.foldl_cons, List.foldl_nil, ih]
      rw [nonSentinel_append_single]
      by_cases h1 : f.factPath ≠ "---"
      · rw [if_pos h1, List.map_append, List.map_singleton, dedupFirst_append_single]
        unfold stepHosts
        rw [if_pos h1]
        by_cases hmem : f.host ∈ dedupFirst ((nonSentinel t).map (fun f => f.host))
        · have hcond : ((dedupFirst ((nonSentinel t).map (fun f => f.host))).map
              (fun h => (h, recFor h t))).any (fun e => e.1 == f.host) = true := by
            rw [List.any_eq_true]
            exact ⟨(f.host, recFor f.host t), List.mem_map_of_mem _ hmem, by simp⟩
          rw [if_pos hcond]
          have hc : (dedupFirst ((nonSentinel t).map (fun f => f.host))).contains f.host = true := by
            simpa using hmem
          unfold insertIfNew
          rw [if_pos hc]
          rw [List.map_map]
          apply List.map_congr_left
          intro h hh
          simp only [Function.comp]
          rw [recFor_append_single]
          by_cases he : h = f.host
          · rw [if_pos (show ((h, recFor h t) :
                String × List (String × FactValue)).1 == f.host from by simp [he])]
            rw [if_pos (show (f.factPath ≠ "---") ∧ f.host = h from ⟨h1, he.symm⟩)]
          · rw [if_neg (show ¬ (((h, recFor h t) :
                String × List (String × FactValue)).1 == f.host) = true from by simp [he])]
            rw [if_neg (show ¬ ((f.factPath ≠ "---") ∧ f.host = h) from
              fun hc2 => he (hc2.2.symm))]
        · have hcond : ¬ ((dedupFirst ((nonSentinel t).map (fun f => f.host))).map
              (fun h => (h, recFor h t))).any (fun e => e.1 == f.host) = true := by
            rw [List.any_eq_true]
            rintro ⟨e, he, hbeq⟩
            rw [List.mem_map] at he
            obtain ⟨h, hh, rfl⟩ := he
            rw [beq_iff_eq] at hbeq
            exact hmem (hbeq ▸ hh)
          rw [if_neg hcond]
          have hc : ¬ (dedupFirst ((nonSentinel t).map (fun f => f.host))).contains f.host = true := by
            simpa using hmem
          unfold insertIfNew
          rw [if_neg hc]
          rw [List.map_append, List.map_append, List.map_map]
          congr 1
          · apply List.map_congr_left
            intro h hh
            simp only [Function.comp]
            have hne2 : h ≠ f.host := fun he => hmem (he ▸ hh)
            rw [if_neg (show ¬ (((h, recFor h t) :
                String × List (String × FactValue)).1 == f.host) = true from by simp [hne2])]
            rw [recFor_append_single]
            rw [if_neg (show ¬ ((f.factPath ≠ "---") ∧ f.host = h) from
              fun hc2 => hne2 (hc2.2.symm))]
          · rw [List.map_singleton, List.map_singleton]
            rw [if_pos (show ((f.host, [("hostname", FactValue.str f.host)]) :
                String × List (String × FactValue)).1 == f.host from by simp)]
            rw [recFor_append_single]
            rw [if_pos (show (f.factPath ≠ "---") ∧ f.host = f.host from ⟨h1, rfl⟩)]
            rw [recFor_not_mem f.host t (fun hmem2 => hmem ((mem_dedupFirst _ _).mpr hmem2))]
      · rw [if_neg h1, List.append_nil]
        unfold stepHosts
        rw [if_neg h1]
        apply List.map_congr_left
        intro h hh
        rw [recFor_append_single]
        rw [if_neg (show ¬ ((f.factPath ≠ "---") ∧ f.host = h) from fun hc2 => h1 hc2.1)]

theorem jsSortStrings_sorted (l : List String) :
    List.Sorted (· ≤ ·) (jsSortStrings l) := by
  have hp := @List.sorted_mergeSort String (fun a b => decide (a ≤ b))
      (fun a b c h1 h2 => by
        simp only [decide_eq_true_eq] at h1 h2 ⊢
        exact le_trans h1 h2)
      (fun a b => by
        simp only [Bool.or_eq_true, decide_eq_true_eq]
        exact le_total a b) l
  exact hp.imp (fun h => of_decide_eq_true h)

theorem jsSortStrings_perm (l : List String) : (jsSortStrings l).Perm l :=
  List.mergeSort_perm l _

/-- C7 (amended): for a non-empty input, the pivot projection emits
exactly one record per host having at least one non-sentinel row (in
first-occurrence order), each record being `hostname` followed by that
host's observed non-sentinel fact paths with their (last-written)
values; the headers are `hostname` followed by the distinct non-sentinel
fact paths sorted ascending.  (On empty input both components are
empty; a host all of whose rows are sentinels yields no record — see
the counterexample.) -/
theorem c7_pivot_projection (facts : List FactRow) (hne : facts ≠ []) :
    (pivotFactsForExport facts).data =
      (dedupFirst ((nonSentinel facts).map (fun f => f.host))).map
        (fun h => recFor h facts) ∧
    (pivotFactsForExport facts).headers =
      "hostname" :: jsSortStrings (dedupFirst ((nonSentinel facts).map (fun f => f.factPath))) ∧
    (dedupFirst ((nonSentinel facts).map (fun f => f.factPath))).Nodup ∧
    List.Sorted (· ≤ ·)
      (jsSortStrings (dedupFirst ((nonSentinel facts).map (fun f => f.factPath)))) ∧
    (jsSortStrings (dedupFirst ((nonSentinel facts).map (fun f => f.factPath)))).Perm
      (dedupFirst ((nonSentinel facts).map (fun f => f.factPath))) := by
  unfold pivotFactsForExport
  rw [if_neg hne]
  rw [foldl_pivotStep_split]
  refine ⟨?_, ?_, dedupFirst_nodup _, jsSortStrings_sorted _, jsSortStrings_perm _⟩
  · show (facts.foldl stepHosts []).map (fun e => e.2) = _
    rw [foldl_stepHosts_eq, List.map_map]
    rfl
  · show "hostname" :: jsSortStrings (facts.foldl stepPaths []) = _
    rw [foldl_stepPaths_eq]
    rfl

/-- Counterexample to C7 as stated: a host whose only row is the
sentinel is present in the input but produces no PivotRecord, and the
empty input produces an empty headers list rather than
`["hostname"]`. -/
theorem c7_counterexample :
    (pivotFactsForExport
      [⟨"h1-no-facts", "h1", "---", .str "(No data available)", none⟩]).data = [] ∧
    (pivotFactsForExport []).headers = [] := by
  constructor
  · decide
  · rfl

theorem nullSort_nullsLast {α β : Type} (field : α → Option β) (base : β → β → Int)
    (dir : SortDirection)
    (hbt : ∀ x y z, base x y ≤ 0 → base y z ≤ 0 → base x z ≤ 0)
    (hba : ∀ x y, 0 ≤ base x y ↔ base y x ≤ 0)
    (hbtot : ∀ x y, base x y ≤ 0 ∨ base y x ≤ 0)
    (cmp : α → α → Int)
    (hcmp : ∀ a b, cmp a b = (match field a, field b with
       | none, none => 0
       | none, some _ => 1
       | some _, none => -1
       | some x, some y =>
           match dir with
           | .ascending => base x y
           | .descending => -(base x y))) (l : List α) :
    List.Pairwise (fun a b => field a = none → field b = none)
      (l.mergeSort (fun a b => decide (cmp a b ≤ 0))) ∧
    (l.mergeSort (fun a b => decide (cmp a b ≤ 0))).Perm l := by
  have hitrans : ∀ x y z : β,
      (match dir with | .ascending => base x y | .descending => -(base x y)) ≤ 0 →
      (match dir with | .ascending => base y z | .descending => -(base y z)) ≤ 0 →
      (match dir with | .ascending => base x z | .descending => -(base x z)) ≤ 0 := by
    intro x y z
    cases dir
    · exact hbt x y z
    · intro h1 h2
      simp only [] at h1 h2 ⊢
      have hyx : base y x ≤ 0 := (hba x y).mp (by omega)
      have hzy : base z y ≤ 0 := (hba y z).mp (by omega)
      have hzx := hbt z y x hzy hyx
      have := (hba x z).mpr hzx
      omega
  have hitotal : ∀ x y : β,
      (match dir with | .ascending => base x y | .descending => -(base x y)) ≤ 0 ∨
      (match dir with | .ascending => base y x | .descending => -(base y x)) ≤ 0 := by
    intro x y
    cases dir
    · exact hbtot x y
    · simp only []
      rcases hbtot y x with h | h
      · have := (hba x y).mpr h
        left
        omega
      · have := (hba y x).mpr h
        right
        omega
  have htrans : ∀ a b c : α, decide (cmp a b ≤ 0) = true → decide (cmp b c ≤ 0) = true →
      decide (cmp a c ≤ 0) = true := by
    intro a b c h1 h2
    rw [decide_eq_true_eq] at h1 h2 ⊢
    rw [hcmp] at h1 h2 ⊢
    cases hfa : field a with
    | none =>
        cases hfb : field b with
        | none =>
            cases hfc : field c with
            | none => simp
            | some z => simp [hfb, hfc] at h2
        | some y => simp [hfa, hfb] at h1
    | some x =>
        cases hfc : field c with
        | none => simp
        | some z =>
            cases hfb : field b with
            | none => simp [hfb, hfc] at h2
            | some y =>
                simp only [hfa, hfb] at h1
                simp only [hfb, hfc] at h2
                simp only [hfa, hfc]
                exact hitrans x y z h1 h2
  have htotal : ∀ a b : α,
      (decide (cmp a b ≤ 0) || decide (cmp b a ≤ 0)) = true := by
    intro a b
    rw [Bool.or_eq_true, decide_eq_true_eq, decide_eq_true_eq, hcmp, hcmp]
    cases hfa : field a with
    | none =>
        cases hfb : field b with
        | none => simp
        | some y => right; simp [hfa, hfb]
    | some x =>
        cases hfb : field b with
        | none => left; simp [hfa, hfb]
        | some y =>
            simp only [hfa, hfb]
            exact hitotal x y
  have hsorted := List.sorted_mergeSort htrans htotal l
  refine ⟨hsorted.imp ?_, List.mergeSort_perm l _⟩
  intro a b hle hfa
  by_cases hfb : field b = none
  · exact hfb
  · exfalso
    rw [decide_eq_true_eq, hcmp] at hle
    rcases Option.ne_none_iff_exists.mp hfb with ⟨y, hy⟩
    rw [hfa, ← hy] at hle
    simp at hle

/-- C8: for any sort key and either direction, both the list sorter and
the pivot sorter place every item whose value at the key is null or
undefined (`none`) after all items with a present value, and return a
permutation of their input (the comparator and sort are total functions,
so no input can make them throw).  `lc` is the host `localeCompare`
collator, assumed to behave as a comparator (transitive, antisymmetric,
total); `getTime` is the host date parser. -/
theorem c8_nulls_sort_last (lc : String → String → Int) (getTime : String → Option Int)
    (cfg : SortConfig) (rows : List FactRow) (pv : PivotResult)
    (hlc_trans : ∀ a b c, lc a b ≤ 0 → lc b c ≤ 0 → lc a c ≤ 0)
    (hlc_anti : ∀ a b, 0 ≤ lc a b ↔ lc b a ≤ 0)
    (hlc_total : ∀ a b, lc a b ≤ 0 ∨ lc b a ≤ 0) :
    (List.Pairwise (fun a b => getRowField a cfg.key = none → getRowField b cfg.key = none)
       (sortedListFacts lc getTime cfg rows) ∧
     (sortedListFacts lc getTime cfg rows).Perm rows) ∧
    (List.Pairwise (fun a b => getRecField a cfg.key = none → getRecField b cfg.key = none)
       ((sortedPivotedData lc cfg pv).data) ∧
     ((sortedPivotedData lc cfg pv).data).Perm pv.data) := by
  constructor
  · have h := nullSort_nullsLast (fun r => getRowField r cfg.key)
      (fun x y => if cfg.key = "modified" then
          ((getTime (jsString x)).getD 0) - ((getTime (jsString y)).getD 0)
        else lc (jsString x) (jsString y))
      cfg.direction
      (by
        intro x y z h1 h2
        by_cases hk : cfg.key = "modified"
        · simp only [if_pos hk] at h1 h2 ⊢
          omega
        · simp only [if_neg hk] at h1 h2 ⊢
          exact hlc_trans _ _ _ h1 h2)
      (by
        intro x y
        by_cases hk : cfg.key = "modified"
        · simp only [if_pos hk]
          omega
        · simp only [if_neg hk]
          exact hlc_anti _ _)
      (by
        intro x y
        by_cases hk : cfg.key = "modified"
        · simp only [if_pos hk]
          omega
        · simp only [if_neg hk]
          exact hlc_total _ _)
      (listRowCmp lc getTime cfg)
      (by
        intro a b
        unfold listRowCmp
        cases h1 : getRowField a cfg.key <;> cases h2 : getRowField b cfg.key <;>
          simp only [h1, h2])
      rows
    exact h
  · have h := nullSort_nullsLast (fun rec => getRecField rec cfg.key)
      (fun x y => lc (jsString x) (jsString y))
      cfg.direction
      (fun x y z h1 h2 => hlc_trans _ _ _ h1 h2)
      (fun x y => hlc_anti _ _)
      (fun x y => hlc_total _ _)
      (pivotRecCmp lc cfg)
      (by
        intro a b
        unfold pivotRecCmp
        cases h1 : getRecField a cfg.key <;> cases h2 : getRecField b cfg.key <;>
          simp only [h1, h2])
      pv.data
    exact h

/-- Witness for C7 at a concrete one-row input. -/
theorem c7_witness :
    (([⟨"h1-role", "h1", "role", FactValue.str "web", none⟩] : List FactRow) ≠ []) ∧
    (pivotFactsForExport [⟨"h1-role", "h1", "role", FactValue.str "web", none⟩]).data =
      (dedupFirst ((nonSentinel [⟨"h1-role", "h1", "role", FactValue.str "web", none⟩]).map
          (fun f => f.host))).map
        (fun h => recFor h [⟨"h1-role", "h1", "role", FactValue.str "web", none⟩]) := by
  refine ⟨by decide, ?_⟩
  exact (c7_pivot_projection _ (by decide)).1

/-- Witness for C8 with the trivial collator and date parser at a
concrete two-row input (one row lacking a `modified` value). -/
theorem c8_witness :
    (∀ a b c : String, (fun _ _ => (0 : Int)) a b ≤ 0 → (fun _ _ => (0 : Int)) b c ≤ 0 →
      (fun _ _ => (0 : Int)) a c ≤ 0) ∧
    List.Pairwise (fun a b => getRowField a "modified" = none → getRowField b "modified" = none)
      (sortedListFacts (fun _ _ => 0) (fun _ => none) ⟨"modified", SortDirection.ascending⟩
        [⟨"i1", "h1", "p", FactValue.str "v", none⟩,
         ⟨"i2", "h2", "p", FactValue.str "v", some "2024-05-20T10:00:00Z"⟩]) := by
  refine ⟨fun a b c h1 _ => h1, ?_⟩
  have h := c8_nulls_sort_last (fun _ _ => 0) (fun _ => none)
      ⟨"modified", SortDirection.ascending⟩
      [⟨"i1", "h1", "p", FactValue.str "v", none⟩,
       ⟨"i2", "h2", "p", FactValue.str "v", some "2024-05-20T10:00:00Z"⟩]
      ⟨[], []⟩
      (fun a b c h1 _ => h1)
      (fun a b => Iff.rfl)
      (fun a b => Or.inl (le_refl 0))
  exact h.1.1
